import Mathlib

/-!
Verification of the pi-mono Telegram bot core against its design
specification.  The three verified components, shallowly embedded from
the TypeScript source, are:

* `ChannelQueue` - the per-conversation serial dispatch queue
  (src/packages/pi-telegram/src/bot.ts);
* `EventsWatcher` - the trigger-descriptor watcher and scheduler
  (events module);
* `SessionManager` - the per-conversation session store
  (src/packages/pi-telegram/src/sessions.ts).
-/

set_option maxHeartbeats 1000000

/- ========================================================================
   ChannelQueue (bot.ts lines 30-57)

   class ChannelQueue {
     private queue: QueuedWork[] = [];
     private processing = false;
     enqueue(work) { this.queue.push(work); this.processNext(); }
     size() { return this.queue.length; }
     private async processNext() {
       if (this.processing || this.queue.length === 0) return;
       this.processing = true;
       const work = this.queue.shift()!;
       try { await work(); }
       catch (err) { log.logWarning("Queue error", ...); }
       this.processing = false;
       this.processNext();
     }
   }
   ======================================================================== -/

/-- Observable events on one conversation's `ChannelQueue`: an item is
appended by `enqueue`, dequeued and started by `processNext`, and
finishes when its awaited promise settles (`ok = true` for success,
`ok = false` for a rejection caught by the try/catch). Items are
identified by a natural number chosen by the environment. -/
inductive QEv where
  | enq (n : Nat)
  | qstart (n : Nat)
  | fin (n : Nat) (ok : Bool)
deriving DecidableEq

/-- `ChannelQueue` state: `pending` is the `queue` array (items pushed
but not yet shifted), `running` is the single item shifted off and
currently awaited (`processing = running.isSome`). -/
structure QState where
  pending : List Nat
  running : Option Nat
deriving DecidableEq

def qinit : QState := { pending := [], running := none }

/-- One step of the `ChannelQueue`, transcribed from
`enqueue`/`processNext`: `enqueue` pushes at the tail of `queue`;
a start is possible only when the `processing` flag is clear and the
queue is non-empty, and it shifts exactly the head; a finish requires
that very item to be in flight and clears the flag (the try/catch makes
success and failure identical for the queue's bookkeeping). -/
def qstep (s : QState) : QEv → Option QState
  | .enq n => some { s with pending := s.pending ++ [n] }
  | .qstart n =>
    match s.running, s.pending with
    | none, m :: rest =>
      if m = n then some { pending := rest, running := some n } else none
    | _, _ => none
  | .fin n _ =>
    match s.running with
    | some m => if m = n then some { s with running := none } else none
    | none => none

/-- Run a trace of queue events from a state; `none` means the trace is
not a possible behaviour of the code. -/
def qrun (s : QState) : List QEv → Option QState
  | [] => some s
  | e :: es =>
    match qstep s e with
    | some s2 => qrun s2 es
    | none => none

/-- Items enqueued, in order. -/
def enqs (tr : List QEv) : List Nat :=
  tr.filterMap fun e => match e with | .enq n => some n | _ => none

/-- Items started (dequeued and begun executing), in order. -/
def qstarts (tr : List QEv) : List Nat :=
  tr.filterMap fun e => match e with | .qstart n => some n | _ => none

/-- Items whose execution completed (successfully or with a caught
failure), in order. -/
def fins (tr : List QEv) : List Nat :=
  tr.filterMap fun e => match e with | .fin n _ => some n | _ => none

lemma qrun_append (t1 : List QEv) (s : QState) (t2 : List QEv) :
    qrun s (t1 ++ t2) = (qrun s t1).bind fun s2 => qrun s2 t2 := by
  induction t1 generalizing s with
  | nil => simp [qrun]
  | cons e es ih =>
    simp only [List.cons_append, qrun]
    cases qstep s e with
    | none => simp
    | some s2 => simpa using ih s2

lemma enqs_append (t1 t2 : List QEv) : enqs (t1 ++ t2) = enqs t1 ++ enqs t2 := by
  simp [enqs]

lemma qstarts_append (t1 t2 : List QEv) :
    qstarts (t1 ++ t2) = qstarts t1 ++ qstarts t2 := by
  simp [qstarts]

lemma fins_append (t1 t2 : List QEv) : fins (t1 ++ t2) = fins t1 ++ fins t2 := by
  simp [fins]

@[simp] lemma enqs_enq (n : Nat) : enqs [QEv.enq n] = [n] := rfl
@[simp] lemma enqs_qstart (n : Nat) : enqs [QEv.qstart n] = [] := rfl
@[simp] lemma enqs_fin (n : Nat) (ok : Bool) : enqs [QEv.fin n ok] = [] := rfl
@[simp] lemma qstarts_enq (n : Nat) : qstarts [QEv.enq n] = [] := rfl
@[simp] lemma qstarts_qstart (n : Nat) : qstarts [QEv.qstart n] = [n] := rfl
@[simp] lemma qstarts_fin (n : Nat) (ok : Bool) : qstarts [QEv.fin n ok] = [] := rfl
@[simp] lemma fins_enq (n : Nat) : fins [QEv.enq n] = [] := rfl
@[simp] lemma fins_qstart (n : Nat) : fins [QEv.qstart n] = [] := rfl
@[simp] lemma fins_fin (n : Nat) (ok : Bool) : fins [QEv.fin n ok] = [n] := rfl

lemma qrun_singleton (s s2 : QState) (e : QEv) :
    qrun s [e] = some s2 ↔ qstep s e = some s2 := by
  simp only [qrun]
  cases qstep s e <;> simp

/-- Queue bookkeeping invariant: the enqueued items are exactly the
finished ones, then the one in flight, then the pending ones, and the
started items are exactly the finished ones plus the one in flight. -/
lemma qrun_inv (tr : List QEv) (s : QState) (h : qrun qinit tr = some s) :
    enqs tr = fins tr ++ (s.running.toList ++ s.pending) ∧
    qstarts tr = fins tr ++ s.running.toList := by
  induction tr using List.reverseRecOn generalizing s with
  | nil =>
    simp only [qrun, qinit, Option.some.injEq] at h
    subst h
    simp [enqs, qstarts, fins, qinit]
  | append_singleton t e ih =>
    rw [qrun_append] at h
    cases hq : qrun qinit t with
    | none => rw [hq] at h; simp at h
    | some s1 =>
      rw [hq] at h
      simp only [Option.some_bind] at h
      rw [qrun_singleton] at h
      obtain ⟨h1, h2⟩ := ih s1 hq
      obtain ⟨p1, r1⟩ := s1
      cases e with
      | enq n =>
        simp only [qstep, Option.some.injEq] at h
        subst h
        constructor <;> simp [enqs_append, qstarts_append, fins_append, h1, h2]
      | qstart n =>
        rcases r1 with _ | m
        · rcases p1 with _ | ⟨m, rest⟩
          · simp [qstep] at h
          · simp only [qstep] at h
            by_cases hm : m = n
            · subst hm
              rw [if_pos rfl] at h
              simp only [Option.some.injEq] at h
              subst h
              constructor <;>
                simp [enqs_append, qstarts_append, fins_append, h1, h2]
            · rw [if_neg hm] at h; simp at h
        · simp [qstep] at h
      | fin n ok =>
        rcases r1 with _ | m
        · simp [qstep] at h
        · simp only [qstep] at h
          by_cases hm : m = n
          · subst hm
            rw [if_pos rfl] at h
            simp only [Option.some.injEq] at h
            subst h
            constructor <;>
              simp [enqs_append, qstarts_append, fins_append, h1, h2]
          · rw [if_neg hm] at h; simp at h

/-- C1: on any one conversation's ChannelQueue, along every possible
trace (every sequence of enqueues interleaved with the queue's own
start/finish steps), items start in strict enqueue (FIFO) order - the
started items form a prefix of the enqueued items - at most one item is
in flight at a time, and no item starts before the previously dequeued
item has completed (the started items are the finished ones plus at
most the single in-flight one). -/
theorem channelQueue_fifo_serial (tr : List QEv) (s : QState)
    (h : qrun qinit tr = some s) :
    qstarts tr <+: enqs tr ∧
    fins tr <+: qstarts tr ∧
    (qstarts tr).length ≤ (fins tr).length + 1 ∧
    qstarts tr = fins tr ++ s.running.toList ∧
    enqs tr = qstarts tr ++ s.pending := by
  obtain ⟨h1, h2⟩ := qrun_inv tr s h
  refine ⟨⟨s.pending, ?_⟩, ⟨s.running.toList, h2.symm⟩, ?_, h2, ?_⟩
  · rw [h2, h1, List.append_assoc]
  · rw [h2]
    have : s.running.toList.length ≤ 1 := by cases s.running <;> simp
    simp only [List.length_append]
    omega
  · rw [h1, h2, List.append_assoc]

/-- Witness for `channelQueue_fifo_serial`: a concrete valid trace in
which two items are enqueued before the first finishes. -/
theorem channelQueue_fifo_serial_witness :
    qstarts [QEv.enq 0, QEv.enq 1, QEv.qstart 0, QEv.fin 0 false,
        QEv.qstart 1, QEv.fin 1 true] <+:
      enqs [QEv.enq 0, QEv.enq 1, QEv.qstart 0, QEv.fin 0 false,
        QEv.qstart 1, QEv.fin 1 true] :=
  (channelQueue_fifo_serial _ qinit (by decide)).1

/- ========================================================================
   ChannelQueue error handling (bot.ts lines 45-56): each dequeued work
   item is awaited inside try/catch; a rejection is logged as
   "Queue error" and processing continues with the next item.
   ======================================================================== -/

/-- Result of awaiting one queued work item: it either fulfils or
rejects with an error message. -/
inductive WorkResult where
  | ok
  | err (msg : String)
deriving DecidableEq

/-- The processing loop of `ChannelQueue.processNext`, transcribed as a
total function over the settlement results of the queued items: every
item is executed in order; a rejection is caught by the try/catch and
logged with the "Queue error" prefix, after which the loop moves on to
the next item.  Returns how many items were executed together with the
warnings logged, and - being a total function into that pair - can
propagate no failure to the code that called `enqueue`. -/
def processItems : List WorkResult → Nat × List String
  | [] => (0, [])
  | .ok :: rest =>
    let p := processItems rest
    (p.1 + 1, p.2)
  | .err m :: rest =>
    let p := processItems rest
    (p.1 + 1, ("Queue error: " ++ m) :: p.2)

/-- C9: a work item that throws is caught and logged inside the queue
and never halts processing: for every sequence of work results, all
items are executed (the executed count equals the total count, whatever
failures occur), and the warnings logged are exactly the caught
failures, in order.  The failure is not propagated to the enqueuing
caller: `processItems` is total and returns only the log. -/
theorem channelQueue_catches_failures (works : List WorkResult) :
    (processItems works).1 = works.length ∧
    (processItems works).2 = works.filterMap
      (fun r => match r with
        | .ok => none
        | .err m => some ("Queue error: " ++ m)) := by
  induction works with
  | nil => simp [processItems]
  | cons w rest ih =>
    cases w with
    | ok => simp [processItems, ih.1, ih.2]
    | err m => simp [processItems, ih.1, ih.2]

/- ========================================================================
   TelegramBot.enqueueEvent (bot.ts lines 112-128):

   enqueueEvent(chatId, text): boolean {
     const queue = this.getQueue(chatId);
     if (queue.size() >= 5) { log.logWarning(...); return false; }
     const event = { chatId, ts, user: "EVENT", text };
     queue.enqueue(() => this.handleEvent(event, true));
     return true;
   }

   size() returns the number of pending (not yet started) items.
   ======================================================================== -/

/-- A trigger-originated event work item as built by `enqueueEvent`. -/
structure EventItem where
  chatId : String
  text : String
deriving DecidableEq

/-- `TelegramBot.enqueueEvent` for one conversation, acting on that
conversation's pending list: reject when 5 or more items are already
pending, otherwise append the event work item at the tail and accept. -/
def enqueueEvent (pending : List EventItem) (item : EventItem) :
    Bool × List EventItem :=
  if 5 ≤ pending.length then (false, pending) else (true, pending ++ [item])

/-- Pending lists of one conversation's queue reachable from empty via
trigger enqueues (`enqueueEvent`) and queue dequeues (`processNext`
shifting the head). -/
inductive QueueReach : List EventItem → Prop
  | init : QueueReach []
  | enq (q : List EventItem) (i : EventItem) :
      QueueReach q → QueueReach (enqueueEvent q i).2
  | deq (q : List EventItem) (i : EventItem) :
      QueueReach (i :: q) → QueueReach q

/-- C6: `enqueueEvent` returns false exactly when the conversation
already has 5 or more outstanding unconsumed items pending in its
queue; otherwise it appends the event work item and returns true; and
every reachable pending list holds at most 5 unconsumed items. -/
theorem enqueueEvent_capacity (q : List EventItem) (i : EventItem) :
    ((enqueueEvent q i).1 = false ↔ 5 ≤ q.length) ∧
    (q.length < 5 → (enqueueEvent q i).2 = q ++ [i]) ∧
    (5 ≤ q.length → (enqueueEvent q i).2 = q) ∧
    (∀ r, QueueReach r → r.length ≤ 5) := by
  refine ⟨?_, ?_, ?_, ?_⟩
  · by_cases h : 5 ≤ q.length <;> simp [enqueueEvent, h]
  · intro h
    rw [enqueueEvent, if_neg (by omega)]
  · intro h
    rw [enqueueEvent, if_pos h]
  · intro r hr
    induction hr with
    | init => simp
    | enq q2 i2 _ ih =>
      by_cases h : 5 ≤ q2.length
      · rw [enqueueEvent, if_pos h]; exact ih
      · rw [enqueueEvent, if_neg h]
        simp only [List.length_append, List.length_singleton]
        omega
    | deq q2 i2 _ ih =>
      simp only [List.length_cons] at ih
      omega

/-- Witness for `enqueueEvent_capacity`: on an empty pending list the
event is accepted and appended; a reachable singleton list is within
the bound. -/
theorem enqueueEvent_capacity_witness :
    (enqueueEvent [] ⟨"42", "hello"⟩).2 = [⟨"42", "hello"⟩] ∧
    [(⟨"42", "hello"⟩ : EventItem)].length ≤ 5 :=
  ⟨(enqueueEvent_capacity [] ⟨"42", "hello"⟩).2.1 (by decide),
   (enqueueEvent_capacity [] ⟨"42", "hello"⟩).2.2.2 _
     (QueueReach.enq [] ⟨"42", "hello"⟩ QueueReach.init)⟩

/- ========================================================================
   SessionManager (sessions.ts)

   createSession: id = randomBytes(4).toString("hex"); now = ISO time;
     meta = { id, title, createdAt: now, lastMessageAt: now,
              messageCount: 0 };
     index.sessions.unshift(meta); setActiveSession(chatId, id);
     return meta;                               // NO collision check

   deleteSession: idx = findIndex(s => s.id === sessionId);
     if (idx === -1) return false;
     sessions.splice(idx, 1);
     if (getActiveSessionId() === sessionId) clearActiveSession();
     return true;

   getOrCreateActiveSession: if the active pointer resolves to an index
     entry return it, else createSession(chatId, "New session").

   The embedding is per conversation (every operation touches only the
   files of its chatId); the 4 random bytes drawn by createSession are
   an explicit input.
   ======================================================================== -/

/-- Session metadata (sessions.ts, interface SessionMeta). -/
structure SessionMeta where
  id : String
  title : String
  createdAt : String
  lastMessageAt : String
  messageCount : Nat
deriving DecidableEq

/-- One conversation's persistent session state: the `sessions.json`
index (newest first) and the `active_session` pointer file. -/
structure ConvStore where
  sessions : List SessionMeta
  activeId : Option String
deriving DecidableEq

/-- The ids occurring in an index, in index order. -/
def sessionIds (l : List SessionMeta) : List String := l.map fun m => m.id

/-- `SessionManager.createSession`: the freshly drawn 4-byte hex id is
the explicit argument `drawnId` (the code performs no collision check
against the index); both timestamps are the same current instant `now`;
the entry is prepended (unshift, newest first) and made active. -/
def createSession (s : ConvStore) (drawnId title now : String) :
    SessionMeta × ConvStore :=
  let meta : SessionMeta :=
    { id := drawnId, title := title, createdAt := now, lastMessageAt := now,
      messageCount := 0 }
  (meta, { sessions := meta :: s.sessions, activeId := some drawnId })

/-- `findIndex` + `splice(idx, 1)`: remove the first entry whose id
matches, or `none` when no entry matches (findIndex returned -1). -/
def removeFirst (sid : String) : List SessionMeta → Option (List SessionMeta)
  | [] => none
  | m :: rest =>
    if m.id = sid then some rest else (removeFirst sid rest).map (m :: ·)

/-- `SessionManager.deleteSession`: remove the first index entry with
the given id (returning false when absent), then clear the active
pointer when it pointed at the deleted id. -/
def deleteSession (s : ConvStore) (sid : String) : Bool × ConvStore :=
  match removeFirst sid s.sessions with
  | none => (false, s)
  | some sessions2 =>
    (true, { sessions := sessions2,
             activeId := if s.activeId = some sid then none else s.activeId })

/-- `SessionManager.getSession`: first index entry with the id. -/
def getSession (s : ConvStore) (sid : String) : Option SessionMeta :=
  s.sessions.find? fun m => m.id == sid

/-- `SessionManager.getOrCreateActiveSession`: return the entry the
active pointer resolves to, otherwise create a fresh "New session"
(with a new random draw `drawnId`) and make it active. -/
def getOrCreateActiveSession (s : ConvStore) (drawnId now : String) :
    SessionMeta × ConvStore :=
  match s.activeId with
  | some aid =>
    match getSession s aid with
    | some m => (m, s)
    | none => createSession s drawnId "New session" now
  | none => createSession s drawnId "New session" now

lemma removeFirst_eq_none (sid : String) (l : List SessionMeta) :
    removeFirst sid l = none ↔ sid ∉ sessionIds l := by
  induction l with
  | nil => simp [removeFirst, sessionIds]
  | cons m rest ih =>
    simp only [removeFirst, sessionIds, List.map_cons, List.mem_cons]
    by_cases h : m.id = sid
    · simp [h]
    · rw [if_neg h]
      simp only [Option.map_eq_none', ih, sessionIds]
      constructor
      · intro hn hor
        rcases hor with h1 | h2
        · exact h h1.symm
        · exact hn h2
      · intro hn h2
        exact hn (Or.inr h2)

lemma removeFirst_some_not_mem (sid : String) :
    ∀ l l2 : List SessionMeta, removeFirst sid l = some l2 →
      (sessionIds l).Nodup → sid ∉ sessionIds l2 := by
  intro l
  induction l with
  | nil => intro l2 h _; simp [removeFirst] at h
  | cons m rest ih =>
    intro l2 h hnd
    simp only [removeFirst] at h
    simp only [sessionIds, List.map_cons, List.nodup_cons] at hnd
    by_cases hm : m.id = sid
    · rw [if_pos hm] at h
      simp only [Option.some.injEq] at h
      subst h
      rw [← hm]
      exact hnd.1
    · rw [if_neg hm] at h
      cases hr : removeFirst sid rest with
      | none => rw [hr] at h; simp at h
      | some l3 =>
        rw [hr] at h
        simp only [Option.map_some', Option.some.injEq] at h
        subst h
        simp only [sessionIds, List.map_cons, List.mem_cons]
        intro hor
        rcases hor with h1 | h2
        · exact hm h1.symm
        · exact ih l3 hr hnd.2 h2

/-- The claim that deleting the active session always yields a fresh
session "with a different id" fails on the code: `createSession` draws
`randomBytes(4)` with no uniqueness check, so the fresh draw can equal
the deleted id.  Concretely: delete the active session `"a3f8c1d2"`,
then `getOrCreateActiveSession` with the colliding draw `"a3f8c1d2"`
returns a session whose id equals the deleted one. -/
theorem deleteSession_recreate_id_collision :
    (deleteSession ⟨[⟨"a3f8c1d2", "Old", "t0", "t1", 3⟩], some "a3f8c1d2"⟩
        "a3f8c1d2").1 = true ∧
    (getOrCreateActiveSession
        (deleteSession ⟨[⟨"a3f8c1d2", "Old", "t0", "t1", 3⟩],
            some "a3f8c1d2"⟩ "a3f8c1d2").2
        "a3f8c1d2" "t2").1.id = "a3f8c1d2" := by
  constructor <;> rfl

/-- C7 (amended): deleting the session that is the active pointer
removes the entry from the index, clears the active pointer, and causes
a subsequent `getOrCreateActiveSession` to create and return a
brand-new session with zero message count and fresh timestamps, never
resurrecting the deleted entry; its id is the new random draw, which
differs from the deleted id whenever the draw does not collide (the
code performs no uniqueness check).  `deleteSession` returns true
exactly when the given id was present in the index. -/
theorem deleteSession_active_fresh_recreate (s : ConvStore)
    (sid d now : String)
    (hnd : (sessionIds s.sessions).Nodup)
    (hact : s.activeId = some sid)
    (hd : d ≠ sid) :
    ((deleteSession s sid).1 = true ↔ sid ∈ sessionIds s.sessions) ∧
    (sid ∈ sessionIds s.sessions →
      (deleteSession s sid).2.activeId = none ∧
      sid ∉ sessionIds (deleteSession s sid).2.sessions ∧
      (getOrCreateActiveSession (deleteSession s sid).2 d now).1.id = d ∧
      (getOrCreateActiveSession (deleteSession s sid).2 d now).1.id ≠ sid ∧
      (getOrCreateActiveSession (deleteSession s sid).2 d now).1.messageCount
        = 0 ∧
      (getOrCreateActiveSession (deleteSession s sid).2 d now).1.createdAt
        = now) := by
  constructor
  · cases hr : removeFirst sid s.sessions with
    | none =>
      have hmem := (removeFirst_eq_none sid s.sessions).mp hr
      simp [deleteSession, hr, hmem]
    | some l2 =>
      have hmem : sid ∈ sessionIds s.sessions := by
        by_contra hmem
        rw [← removeFirst_eq_none] at hmem
        rw [hmem] at hr
        exact Option.noConfusion hr
      simp [deleteSession, hr, hmem]
  · intro hmem
    obtain ⟨l2, hr⟩ : ∃ l2, removeFirst sid s.sessions = some l2 := by
      cases hx : removeFirst sid s.sessions with
      | none =>
        rw [removeFirst_eq_none] at hx
        exact absurd hmem hx
      | some l2 => exact ⟨l2, rfl⟩
    have hds : deleteSession s sid =
        (true, { sessions := l2, activeId := none }) := by
      simp [deleteSession, hr, hact]
    rw [hds]
    have hnotmem : sid ∉ sessionIds l2 :=
      removeFirst_some_not_mem sid s.sessions l2 hr hnd
    exact ⟨rfl, hnotmem, rfl, hd, rfl, rfl⟩

/-- Witness for `deleteSession_active_fresh_recreate`: a store holding
the single active session `"aaaa1111"`, deleted and recreated with the
non-colliding draw `"bbbb2222"`. -/
theorem deleteSession_active_fresh_recreate_witness :
    (deleteSession ⟨[⟨"aaaa1111", "T", "t0", "t1", 3⟩], some "aaaa1111"⟩
        "aaaa1111").1 = true ∧
    (getOrCreateActiveSession
        (deleteSession ⟨[⟨"aaaa1111", "T", "t0", "t1", 3⟩],
            some "aaaa1111"⟩ "aaaa1111").2 "bbbb2222" "t2").1.id
      = "bbbb2222" := by
  have h := deleteSession_active_fresh_recreate
    ⟨[⟨"aaaa1111", "T", "t0", "t1", 3⟩], some "aaaa1111"⟩
    "aaaa1111" "bbbb2222" "t2" (by decide) rfl (by decide)
  exact ⟨h.1.mpr (by decide), (h.2 (by decide)).2.2.1⟩

/-- The claim that `createSession` generates an id "unique within that
conversation's index" fails on the code: no collision check is made
against existing entries, so a colliding random draw produces a
duplicate id in the index. -/
theorem createSession_id_collision :
    ¬ (sessionIds (createSession
        ⟨[⟨"a3f8c1d2", "Old", "t0", "t0", 2⟩], some "a3f8c1d2"⟩
        "a3f8c1d2" "New" "t1").2.sessions).Nodup := by
  decide

/-- C8 (amended): `createSession` builds metadata whose `createdAt` and
`lastMessageAt` are the same current instant and whose message count is
zero, prepends the entry at the head of the index (newest first), sets
it active, and returns it; the id is the 4-byte random draw, which is
unique within the index only when the draw does not already occur there
(the code performs no collision check). -/
theorem createSession_spec (s : ConvStore) (d title now : String)
    (hfresh : d ∉ sessionIds s.sessions)
    (hnd : (sessionIds s.sessions).Nodup) :
    (createSession s d title now).1.id = d ∧
    (createSession s d title now).1.title = title ∧
    (createSession s d title now).1.createdAt = now ∧
    (createSession s d title now).1.lastMessageAt = now ∧
    (createSession s d title now).1.messageCount = 0 ∧
    (createSession s d title now).2.sessions
      = (createSession s d title now).1 :: s.sessions ∧
    (createSession s d title now).2.activeId = some d ∧
    (sessionIds (createSession s d title now).2.sessions).Nodup := by
  refine ⟨rfl, rfl, rfl, rfl, rfl, rfl, rfl, ?_⟩
  show (d :: sessionIds s.sessions).Nodup
  exact List.nodup_cons.mpr ⟨hfresh, hnd⟩

/-- Witness for `createSession_spec`: creating a session with the fresh
draw `"bbbb2222"` in an index holding `"aaaa1111"`. -/
theorem createSession_spec_witness :
    (createSession ⟨[⟨"aaaa1111", "T", "t0", "t1", 3⟩], some "aaaa1111"⟩
        "bbbb2222" "New" "t2").1.messageCount = 0 ∧
    (sessionIds (createSession
        ⟨[⟨"aaaa1111", "T", "t0", "t1", 3⟩], some "aaaa1111"⟩
        "bbbb2222" "New" "t2").2.sessions).Nodup := by
  have h := createSession_spec
    ⟨[⟨"aaaa1111", "T", "t0", "t1", 3⟩], some "aaaa1111"⟩
    "bbbb2222" "New" "t2" (by decide) (by decide)
  exact ⟨h.2.2.2.2.1, h.2.2.2.2.2.2.2⟩

/- ========================================================================
   EventsWatcher lifecycle and handleImmediate (events module)

   constructor: this.startTime = Date.now();       // at construction
   start(): mkdir if needed; scanExisting(); watch(...);   // startTime untouched
   handleImmediate(filename, event):
     stat = statSync(filePath);
     if (stat.mtimeMs < this.startTime) { deleteFile; return; }  // stale
     execute(filename, event);                     // deleteAfter = true
   ======================================================================== -/

/-- EventsWatcher lifecycle state relevant to the stale-immediate
check: the recorded `startTime` and whether `start()` has run. -/
structure WatcherLife where
  startTime : Int
  started : Bool
deriving DecidableEq

/-- The `EventsWatcher` constructor: `this.startTime = Date.now()` runs
here, at construction time. -/
def mkEventsWatcher (now : Int) : WatcherLife :=
  { startTime := now, started := false }

/-- `EventsWatcher.start()` at instant `now` (directory scan and watch
registration elided): it begins watching but does not write
`startTime`. -/
def watcherStart (w : WatcherLife) (now : Int) : WatcherLife :=
  { w with started := true }

/-- Observable effect of `handleImmediate` on one immediate descriptor
file: how many dispatches were made and whether the file was deleted
(execute with deleteAfter = true deletes it after a dispatch too). -/
structure ImmEffect where
  dispatches : Nat
  fileDeleted : Bool
deriving DecidableEq

/-- `EventsWatcher.handleImmediate` for a descriptor file whose
last-modified time is `mtime`: delete without firing when
`mtime < startTime`, otherwise fire now. -/
def handleImmediate (w : WatcherLife) (mtime : Int) : ImmEffect :=
  if mtime < w.startTime then { dispatches := 0, fileDeleted := true }
  else { dispatches := 1, fileDeleted := true }

/-- Modelled from the spec sentence the claim relies on ("`start()`
... records the watcher's own start time"): the stale comparison would
then be against the instant at which `start()` was invoked. -/
def handleImmediateSpecReading (startCallTime mtime : Int) : ImmEffect :=
  if mtime < startCallTime then { dispatches := 0, fileDeleted := true }
  else { dispatches := 1, fileDeleted := true }

/-- Counterexample to C3 as stated: the code records `startTime` in the
constructor, not in `start()`.  Construct the watcher at instant 10 and
call `start()` at instant 20: for an immediate descriptor with mtime
15, the code fires it (15 is not before the construction instant 10),
whereas under the claim's reading (start time recorded by `start()`,
i.e. 20) it would be stale-deleted without firing. -/
theorem watcher_startTime_at_construction :
    (watcherStart (mkEventsWatcher 10) 20).startTime = 10 ∧
    (watcherStart (mkEventsWatcher 10) 20).startTime ≠ 20 ∧
    (handleImmediate (watcherStart (mkEventsWatcher 10) 20) 15).dispatches
      = 1 ∧
    (handleImmediateSpecReading 20 15).dispatches = 0 := by
  refine ⟨rfl, by decide, by decide, by decide⟩

/-- C3 (amended): the watcher's start time is recorded by the
constructor (when the watcher is created), and `start()` leaves it
unchanged; an immediate descriptor whose file mtime is earlier than
that construction-recorded time is deleted without ever firing, and one
whose mtime is at or after it fires immediately (one dispatch). -/
theorem handleImmediate_stale_check (t0 t1 mtime : Int) :
    (watcherStart (mkEventsWatcher t0) t1).startTime = t0 ∧
    (mtime < t0 →
      handleImmediate (watcherStart (mkEventsWatcher t0) t1) mtime
        = { dispatches := 0, fileDeleted := true }) ∧
    (t0 ≤ mtime →
      handleImmediate (watcherStart (mkEventsWatcher t0) t1) mtime
        = { dispatches := 1, fileDeleted := true }) := by
  refine ⟨rfl, ?_, ?_⟩
  · intro h
    simp [handleImmediate, mkEventsWatcher, watcherStart, h]
  · intro h
    simp [handleImmediate, mkEventsWatcher, watcherStart, not_lt.mpr h]

/-- Witness for `handleImmediate_stale_check` at construction time 10,
start-call time 20, mtimes 5 (stale) and 15 (fires). -/
theorem handleImmediate_stale_check_witness :
    handleImmediate (watcherStart (mkEventsWatcher 10) 20) 5
      = { dispatches := 0, fileDeleted := true } ∧
    handleImmediate (watcherStart (mkEventsWatcher 10) 20) 15
      = { dispatches := 1, fileDeleted := true } :=
  ⟨(handleImmediate_stale_check 10 20 5).2.1 (by decide),
   (handleImmediate_stale_check 10 20 15).2.2 (by decide)⟩

/- ========================================================================
   EventsWatcher.handleOneShot / execute (events module)

   handleOneShot: atTime = new Date(event.at).getTime(); now = Date.now();
     if (atTime <= now) { deleteFile; return; }
     timer = setTimeout(() => { timers.delete(filename); execute(...); },
                        atTime - now);
     timers.set(filename, timer);
   execute(filename, event, deleteAfter = true):
     enqueued = target.enqueueEvent(chatId, message);
     if (enqueued && deleteAfter) deleteFile;
     else if (!enqueued) { warn; if (deleteAfter) deleteFile; }
   ======================================================================== -/

/-- Lifecycle state of a single one-shot descriptor: whether its file
still exists, the registered timer's scheduled fire instant, and the
instants at which a dispatch to the consumer was made. -/
structure OneShotState where
  fileExists : Bool
  timerAt : Option Int
  dispatchTimes : List Int
deriving DecidableEq

def oneShotInit : OneShotState :=
  { fileExists := true, timerAt := none, dispatchTimes := [] }

/-- `EventsWatcher.handleOneShot` handled at instant `now` for a
descriptor with timestamp `atTime`: already due (`atTime ≤ now`) -
delete the file without firing; strictly future - register a timer for
a delay of `atTime - now`, i.e. scheduled to fire at `atTime`. -/
def handleOneShot (atTime now : Int) (s : OneShotState) : OneShotState :=
  if atTime ≤ now then { s with fileExists := false, timerAt := none }
  else { s with timerAt := some atTime }

/-- The registered timer firing at instant `t` (a timeout never fires
before its delay has elapsed, so `t` is at or after the scheduled
instant): the timer bookkeeping is removed and `execute` runs with
`deleteAfter = true`, making exactly one dispatch and deleting the file
whether or not the consumer accepted. -/
def fireOneShotTimer (t : Int) (accepted : Bool) (s : OneShotState) :
    OneShotState :=
  match s.timerAt with
  | none => s
  | some _ =>
    { fileExists := false, timerAt := none,
      dispatchTimes := s.dispatchTimes ++ [t] }

/-- C2: a one-shot descriptor whose `at` is strictly in the future when
handled gets a timer for `at`, and when that timer fires at any instant
`t ≥ at` exactly one dispatch occurs (at `t`) and the descriptor file
is deleted afterward, whatever the consumer's verdict; one whose `at`
is already in the past when handled is deleted with no dispatch and no
timer. -/
theorem oneShot_dispatch_exactly_once (atTime now t : Int)
    (accepted : Bool) :
    (now < atTime → atTime ≤ t →
      (handleOneShot atTime now oneShotInit).timerAt = some atTime ∧
      fireOneShotTimer t accepted (handleOneShot atTime now oneShotInit)
        = { fileExists := false, timerAt := none, dispatchTimes := [t] }) ∧
    (atTime < now →
      handleOneShot atTime now oneShotInit
        = { fileExists := false, timerAt := none, dispatchTimes := [] }) := by
  constructor
  · intro h1 _
    have hn : ¬ atTime ≤ now := not_le.mpr h1
    constructor
    · simp [handleOneShot, hn, oneShotInit]
    · simp [handleOneShot, hn, fireOneShotTimer, oneShotInit]
  · intro h2
    simp [handleOneShot, le_of_lt h2, oneShotInit]

/-- Witness for `oneShot_dispatch_exactly_once`: a one-shot due at 100
handled at 50 fires once at 100 even when the consumer rejects it, and
one due at 10 handled at 50 is deleted without any dispatch. -/
theorem oneShot_dispatch_exactly_once_witness :
    fireOneShotTimer 100 false (handleOneShot 100 50 oneShotInit)
      = { fileExists := false, timerAt := none, dispatchTimes := [100] } ∧
    handleOneShot 10 50 oneShotInit
      = { fileExists := false, timerAt := none, dispatchTimes := [] } :=
  ⟨((oneShot_dispatch_exactly_once 100 50 100 false).1 (by decide)
      (by decide)).2,
   (oneShot_dispatch_exactly_once 10 50 100 false).2 (by decide)⟩

/- ========================================================================
   EventsWatcher.execute / handlePeriodic: consumer rejection
   ======================================================================== -/

/-- The three trigger descriptor types. -/
inductive TriggerType where
  | immediate
  | oneShot
  | periodic
deriving DecidableEq

/-- Observable effect of a single `EventsWatcher.execute` call. -/
structure ExecEffect where
  dispatched : Bool
  warned : Bool
  fileDeleted : Bool
deriving DecidableEq

/-- `EventsWatcher.execute` with the consumer's verdict `accepted`:
the payload is always handed to `enqueueEvent` (one dispatch); then
`if (enqueued && deleteAfter) delete; else if (!enqueued) { warn;
if (deleteAfter) delete; }`. -/
def executeEffect (accepted deleteAfter : Bool) : ExecEffect :=
  if accepted && deleteAfter then
    { dispatched := true, warned := false, fileDeleted := true }
  else if !accepted then
    { dispatched := true, warned := true, fileDeleted := deleteAfter }
  else
    { dispatched := true, warned := false, fileDeleted := false }

/-- The `deleteAfter` argument at each call site of `execute`:
`handleImmediate` and the one-shot timer callback use the default
`true`; the periodic cron callback passes `false`. -/
def deleteAfterFor : TriggerType → Bool
  | .periodic => false
  | _ => true

/-- State of one periodic descriptor: its cron registration (in the
watcher's crons map) and its file. -/
structure PeriodicState where
  cronActive : Bool
  fileExists : Bool
deriving DecidableEq

/-- One firing of the cron callback for a periodic descriptor:
`execute(filename, event, false)`; the cron registration is not
touched, so it stays scheduled for the next occurrence. -/
def firePeriodic (accepted : Bool) (s : PeriodicState) :
    PeriodicState × ExecEffect :=
  let eff := executeEffect accepted false
  ({ cronActive := s.cronActive,
     fileExists := s.fileExists && !eff.fileDeleted }, eff)

/-- C5: when the consumer rejects a fired trigger, a warning is logged;
an immediate or one-shot trigger's file is deleted anyway (discarded,
not retried), while a periodic trigger's file is not deleted and its
cron registration remains in place for the next occurrence. -/
theorem rejected_trigger_handling (ty : TriggerType) (s : PeriodicState) :
    (executeEffect false (deleteAfterFor ty)).warned = true ∧
    (ty ≠ TriggerType.periodic →
      (executeEffect false (deleteAfterFor ty)).fileDeleted = true) ∧
    (ty = TriggerType.periodic →
      (executeEffect false (deleteAfterFor ty)).fileDeleted = false) ∧
    (firePeriodic false s).1.cronActive = s.cronActive ∧
    (firePeriodic false s).1.fileExists = s.fileExists ∧
    (firePeriodic false s).2.warned = true := by
  cases ty <;> simp [executeEffect, deleteAfterFor, firePeriodic]

/-- Witness for `rejected_trigger_handling`: a rejected one-shot is
deleted, a rejected periodic is not and keeps its cron. -/
theorem rejected_trigger_handling_witness :
    (executeEffect false (deleteAfterFor TriggerType.oneShot)).fileDeleted
      = true ∧
    (executeEffect false (deleteAfterFor TriggerType.periodic)).fileDeleted
      = false :=
  ⟨(rejected_trigger_handling TriggerType.oneShot ⟨true, true⟩).2.1
      (by decide),
   (rejected_trigger_handling TriggerType.periodic ⟨true, true⟩).2.2.1 rfl⟩

/- ========================================================================
   EventsWatcher.handleFile: parse retry loop (events module)

   const MAX_RETRIES = 3;
   const RETRY_BASE_MS = 100;
   for (let i = 0; i < MAX_RETRIES; i++) {
     try { content = await readFile(filePath); event = parseEvent(content);
           break; }
     catch (err) { lastError = err;
       if (i < MAX_RETRIES - 1) await sleep(RETRY_BASE_MS * 2 ** i); }
   }
   if (!event) { logWarning("Failed to parse ... after 3 retries");
                 deleteFile(filename); return; }
   // ... switch (event.type) { handleImmediate / handleOneShot /
   //                           handlePeriodic }
   ======================================================================== -/

def MAX_RETRIES : Nat := 3

def RETRY_BASE_MS : Nat := 100

/-- A parsed trigger descriptor, as produced by `parseEvent`. -/
inductive ParsedEvent where
  | immediate (chatId text : String)
  | oneShot (chatId text atTime : String)
  | periodic (chatId text schedule timezone : String)
deriving DecidableEq

/-- The retry loop of `EventsWatcher.handleFile` from attempt index
`i`: the environment function `f` gives the result of each
read-and-parse attempt (`none` when it throws).  On a failure the loop
sleeps `RETRY_BASE_MS * 2 ^ i` - but only when another attempt remains
- and retries.  Returns the parsed event (if any attempt succeeded),
the number of attempts made, and the backoff delays slept. -/
def attemptFrom (f : Nat → Option ParsedEvent) (i : Nat) :
    Option ParsedEvent × Nat × List Nat :=
  if i < MAX_RETRIES then
    match f i with
    | some e => (some e, 1, [])
    | none =>
      if i < MAX_RETRIES - 1 then
        let r := attemptFrom f (i + 1)
        (r.1, r.2.1 + 1, RETRY_BASE_MS * 2 ^ i :: r.2.2)
      else (none, 1, [])
  else (none, 0, [])
termination_by MAX_RETRIES - i
decreasing_by simp [MAX_RETRIES] at *; omega

/-- Outcome of `EventsWatcher.handleFile` for one descriptor file:
either no attempt parsed it - the file is deleted and a warning logged
- or the parsed event goes on to the per-type dispatch
(`handleImmediate` / `handleOneShot` / `handlePeriodic`). -/
inductive HandleFileOutcome where
  | deletedUnparsable (attempts : Nat) (delays : List Nat)
  | dispatched (e : ParsedEvent) (attempts : Nat) (delays : List Nat)
deriving DecidableEq

/-- `EventsWatcher.handleFile` against the attempt results `f`. -/
def handleFile (f : Nat → Option ParsedEvent) : HandleFileOutcome :=
  match attemptFrom f 0 with
  | (none, k, ds) => .deletedUnparsable k ds
  | (some e, k, ds) => .dispatched e k ds

lemma attemptFrom_two (g : Nat → Option ParsedEvent) :
    attemptFrom g 2 = (g 2, 1, []) := by
  rw [attemptFrom]
  cases hg : g 2 <;> simp [MAX_RETRIES]

lemma attemptFrom_one_some (g : Nat → Option ParsedEvent)
    (e : ParsedEvent) (h : g 1 = some e) :
    attemptFrom g 1 = (some e, 1, []) := by
  rw [attemptFrom]
  simp [MAX_RETRIES, h]

lemma attemptFrom_one_none (g : Nat → Option ParsedEvent)
    (h : g 1 = none) : attemptFrom g 1 = (g 2, 2, [200]) := by
  rw [attemptFrom]
  simp [MAX_RETRIES, h, attemptFrom_two, RETRY_BASE_MS]

lemma attemptFrom_zero_some (g : Nat → Option ParsedEvent)
    (e : ParsedEvent) (h : g 0 = some e) :
    attemptFrom g 0 = (some e, 1, []) := by
  rw [attemptFrom]
  simp [MAX_RETRIES, h]

lemma attemptFrom_zero_mid (g : Nat → Option ParsedEvent)
    (e : ParsedEvent) (h0 : g 0 = none) (h1 : g 1 = some e) :
    attemptFrom g 0 = (some e, 2, [100]) := by
  rw [attemptFrom]
  simp [MAX_RETRIES, h0, attemptFrom_one_some g e h1, RETRY_BASE_MS]

lemma attemptFrom_zero_none (g : Nat → Option ParsedEvent)
    (h0 : g 0 = none) (h1 : g 1 = none) :
    attemptFrom g 0 = (g 2, 3, [100, 200]) := by
  rw [attemptFrom]
  simp [MAX_RETRIES, h0, attemptFrom_one_none g h1, RETRY_BASE_MS]

/-- C4: parsing a descriptor file is attempted up to `MAX_RETRIES = 3`
times with exponential backoff - the delay slept after failed attempt
`i` is `RETRY_BASE_MS * 2 ^ i`, doubling each time; when every attempt
fails, the outcome is deletion-with-warning after exactly 3 attempts
and backoff delays 100 ms then 200 ms, and no dispatch to the per-type
scheduling ever results; for every attempt environment the loop makes
at most 3 attempts and sleeps a prefix of the doubling sequence. -/
theorem unparsable_descriptor_deleted (f : Nat → Option ParsedEvent)
    (h : ∀ i, f i = none) :
    handleFile f = HandleFileOutcome.deletedUnparsable MAX_RETRIES
      [RETRY_BASE_MS * 2 ^ 0, RETRY_BASE_MS * 2 ^ 1] ∧
    (∀ e k ds, handleFile f ≠ HandleFileOutcome.dispatched e k ds) ∧
    (∀ g : Nat → Option ParsedEvent,
      (attemptFrom g 0).2.1 ≤ MAX_RETRIES ∧
      (attemptFrom g 0).2.2 <+:
        [RETRY_BASE_MS * 2 ^ 0, RETRY_BASE_MS * 2 ^ 1]) := by
  have hf : attemptFrom f 0 = (none, 3, [100, 200]) := by
    rw [attemptFrom_zero_none f (h 0) (h 1), h 2]
  refine ⟨?_, ?_, ?_⟩
  · simp only [handleFile, hf]
    norm_num [MAX_RETRIES, RETRY_BASE_MS]
  · intro e k ds
    simp [handleFile, hf]
  · intro g
    have hd : (100 : Nat) = RETRY_BASE_MS * 2 ^ 0 := by
      norm_num [RETRY_BASE_MS]
    have hd2 : (200 : Nat) = RETRY_BASE_MS * 2 ^ 1 := by
      norm_num [RETRY_BASE_MS]
    rcases h0 : g 0 with _ | e0
    · rcases h1 : g 1 with _ | e1
      · rw [attemptFrom_zero_none g h0 h1, ← hd, ← hd2]
        exact ⟨by simp [MAX_RETRIES], List.prefix_refl _⟩
      · rw [attemptFrom_zero_mid g e1 h0 h1, ← hd, ← hd2]
        refine ⟨by simp [MAX_RETRIES], ⟨[200], rfl⟩⟩
    · rw [attemptFrom_zero_some g e0 h0, ← hd, ← hd2]
      exact ⟨by simp [MAX_RETRIES], ⟨[100, 200], rfl⟩⟩

/-- Witness for `unparsable_descriptor_deleted`: a file every read of
which fails to parse is deleted after 3 attempts with backoffs
100 and 200. -/
theorem unparsable_descriptor_deleted_witness :
    handleFile (fun _ => none) = HandleFileOutcome.deletedUnparsable 3
      [100, 200] :=
  (unparsable_descriptor_deleted (fun _ => none) (fun _ => rfl)).1


/- ========================================================================
   EventsWatcher: only ".json" filenames are handled (events module)

   start(): watch(dir, (_eventType, filename) => {
     if (!filename || !filename.endsWith(".json")) return;
     debounce(filename, () => handleFileChange(filename)); });
   scanExisting(): readdirSync(dir).filter(f => f.endsWith(".json"))
                   .forEach(handleFile);
   ======================================================================== -/

/-- `filename.endsWith(".json")`, embedded as the suffix test on the
filename's character list. -/
def endsWithJson (fn : String) : Bool :=
  ".json".data.isSuffixOf fn.data

/-- What the (debounced) handling of one descriptor file resolves to,
determined by the file's existence, the parse outcome, the trigger type
and the conditions the handlers check. -/
inductive HandleAction where
  | fileGone
  | unparsable
  | immStale
  | immFire (accepted : Bool)
  | oneShotPast
  | oneShotFuture
  | periodicValid
  | periodicInvalidCron
deriving DecidableEq

/-- The watcher's per-filename registries (knownFiles, timers, crons)
together with its observable outputs (dispatch and unlink calls). -/
structure WatcherMaps where
  known : List String
  timers : List String
  crons : List String
  dispatches : List String
  deletions : List String
deriving DecidableEq

def watcherMapsInit : WatcherMaps := ⟨[], [], [], [], []⟩

/-- `Map.set` / `Set.add` on a list of names: idempotent insert. -/
def insertName (l : List String) (fn : String) : List String :=
  if fn ∈ l then l else l ++ [fn]

/-- `EventsWatcher.deleteFile`: unlink the file and drop it from
knownFiles. -/
def deleteFileM (s : WatcherMaps) (fn : String) : WatcherMaps :=
  { s with deletions := s.deletions ++ [fn], known := s.known.erase fn }

/-- `EventsWatcher.cancelScheduled`: clear any timer and cron of fn. -/
def cancelScheduledM (s : WatcherMaps) (fn : String) : WatcherMaps :=
  { s with timers := s.timers.erase fn, crons := s.crons.erase fn }

/-- `EventsWatcher.handleDelete`: for a known vanished file, cancel its
schedule and forget it; unknown filenames are ignored. -/
def handleDeleteM (s : WatcherMaps) (fn : String) : WatcherMaps :=
  if fn ∈ s.known then
    let s1 := cancelScheduledM s fn
    { s1 with known := s1.known.erase fn }
  else s

/-- `EventsWatcher.handleFile` after the parse loop: an unparsable file
is deleted; otherwise the filename is added to knownFiles and the
per-type handler runs (stale/past/invalid-cron delete the file; an
immediate fire dispatches then deletes; a future one-shot registers a
timer; a valid periodic registers a cron). -/
def handleFileM (s : WatcherMaps) (fn : String) : HandleAction → WatcherMaps
  | .fileGone => s
  | .unparsable => deleteFileM s fn
  | .immStale => deleteFileM { s with known := insertName s.known fn } fn
  | .immFire _ =>
    let s1 := { s with known := insertName s.known fn }
    deleteFileM { s1 with dispatches := s1.dispatches ++ [fn] } fn
  | .oneShotPast => deleteFileM { s with known := insertName s.known fn } fn
  | .oneShotFuture =>
    { s with known := insertName s.known fn,
             timers := insertName s.timers fn }
  | .periodicValid =>
    { s with known := insertName s.known fn,
             crons := insertName s.crons fn }
  | .periodicInvalidCron =>
    deleteFileM { s with known := insertName s.known fn } fn

/-- `EventsWatcher.handleFileChange`: a vanished file goes to
`handleDelete`; an existing known file first has its schedule cancelled
(a rewrite replaces the schedule), then is re-handled; a new file is
handled directly. -/
def handleFileChangeM (s : WatcherMaps) (fn : String) (act : HandleAction) :
    WatcherMaps :=
  match act with
  | .fileGone => handleDeleteM s fn
  | _ =>
    if fn ∈ s.known then handleFileM (cancelScheduledM s fn) fn act
    else handleFileM s fn act

/-- The `watch` callback registered by `start()`: a notification whose
filename does not end in ".json" returns immediately; otherwise the
(debounced) change handling runs. -/
def watchNotify (s : WatcherMaps) (fn : String) (act : HandleAction) :
    WatcherMaps :=
  if endsWithJson fn then handleFileChangeM s fn act else s

/-- One file of the `scanExisting` pass: the directory listing is
filtered to names ending in ".json" before `handleFile` is called. -/
def scanFileM (s : WatcherMaps) (fn : String) (act : HandleAction) :
    WatcherMaps :=
  if endsWithJson fn then handleFileM s fn act else s

/-- A registered one-shot timer for `fn` firing: the timer entry is
removed, then `execute` dispatches and deletes the file. -/
def fireTimerM (s : WatcherMaps) (fn : String) : WatcherMaps :=
  if fn ∈ s.timers then
    deleteFileM { s with timers := s.timers.erase fn,
                         dispatches := s.dispatches ++ [fn] } fn
  else s

/-- A registered cron for `fn` firing: `execute` with
`deleteAfter = false` - dispatch only, registries unchanged. -/
def fireCronM (s : WatcherMaps) (fn : String) : WatcherMaps :=
  if fn ∈ s.crons then { s with dispatches := s.dispatches ++ [fn] }
  else s

/-- The watcher's externally triggered steps. -/
inductive WatcherCmd where
  | notify (fn : String) (act : HandleAction)
  | scan (fn : String) (act : HandleAction)
  | fireTimer (fn : String)
  | fireCron (fn : String)

def watcherStep (s : WatcherMaps) : WatcherCmd → WatcherMaps
  | .notify fn act => watchNotify s fn act
  | .scan fn act => scanFileM s fn act
  | .fireTimer fn => fireTimerM s fn
  | .fireCron fn => fireCronM s fn

def watcherRun (s : WatcherMaps) : List WatcherCmd → WatcherMaps
  | [] => s
  | c :: cs => watcherRun (watcherStep s c) cs

/-- All registry entries end in ".json". -/
def JsonOnly (s : WatcherMaps) : Prop :=
  (∀ fn ∈ s.known, endsWithJson fn = true) ∧
  (∀ fn ∈ s.timers, endsWithJson fn = true) ∧
  (∀ fn ∈ s.crons, endsWithJson fn = true)

lemma mem_insertName {l : List String} {fn x : String}
    (h : x ∈ insertName l fn) : x ∈ l ∨ x = fn := by
  unfold insertName at h
  split at h
  · exact Or.inl h
  · rcases List.mem_append.mp h with h1 | h1
    · exact Or.inl h1
    · simp at h1
      exact Or.inr h1

lemma jsonOnly_insertName {l : List String} {fn : String}
    (hl : ∀ x ∈ l, endsWithJson x = true)
    (hfn : endsWithJson fn = true) :
    ∀ x ∈ insertName l fn, endsWithJson x = true := by
  intro x hx
  rcases mem_insertName hx with h | h
  · exact hl x h
  · rw [h]; exact hfn

lemma jsonOnly_erase {l : List String} {fn : String}
    (hl : ∀ x ∈ l, endsWithJson x = true) :
    ∀ x ∈ l.erase fn, endsWithJson x = true :=
  fun x hx => hl x (List.mem_of_mem_erase hx)

lemma jsonOnly_deleteFileM {s : WatcherMaps} {fn : String}
    (hs : JsonOnly s) : JsonOnly (deleteFileM s fn) :=
  ⟨jsonOnly_erase hs.1, hs.2.1, hs.2.2⟩

lemma jsonOnly_cancelScheduledM {s : WatcherMaps} {fn : String}
    (hs : JsonOnly s) : JsonOnly (cancelScheduledM s fn) :=
  ⟨hs.1, jsonOnly_erase hs.2.1, jsonOnly_erase hs.2.2⟩

lemma jsonOnly_handleFileM {s : WatcherMaps} {fn : String}
    (act : HandleAction) (hs : JsonOnly s)
    (hfn : endsWithJson fn = true) :
    JsonOnly (handleFileM s fn act) := by
  obtain ⟨hk, ht, hc⟩ := hs
  cases act with
  | fileGone => exact ⟨hk, ht, hc⟩
  | unparsable => exact jsonOnly_deleteFileM ⟨hk, ht, hc⟩
  | immStale =>
    exact jsonOnly_deleteFileM ⟨jsonOnly_insertName hk hfn, ht, hc⟩
  | immFire a =>
    exact jsonOnly_deleteFileM ⟨jsonOnly_insertName hk hfn, ht, hc⟩
  | oneShotPast =>
    exact jsonOnly_deleteFileM ⟨jsonOnly_insertName hk hfn, ht, hc⟩
  | oneShotFuture =>
    exact ⟨jsonOnly_insertName hk hfn, jsonOnly_insertName ht hfn, hc⟩
  | periodicValid =>
    exact ⟨jsonOnly_insertName hk hfn, ht, jsonOnly_insertName hc hfn⟩
  | periodicInvalidCron =>
    exact jsonOnly_deleteFileM ⟨jsonOnly_insertName hk hfn, ht, hc⟩

lemma jsonOnly_handleDeleteM {s : WatcherMaps} {fn : String}
    (hs : JsonOnly s) : JsonOnly (handleDeleteM s fn) := by
  unfold handleDeleteM
  split
  · have h1 := @jsonOnly_cancelScheduledM s fn hs
    exact ⟨jsonOnly_erase h1.1, h1.2.1, h1.2.2⟩
  · exact hs

lemma handleFileChangeM_not_gone (s : WatcherMaps) (fn : String)
    (act : HandleAction) (h : act ≠ HandleAction.fileGone) :
    handleFileChangeM s fn act =
      if fn ∈ s.known then handleFileM (cancelScheduledM s fn) fn act
      else handleFileM s fn act := by
  cases act
  case fileGone => exact absurd rfl h
  all_goals rfl

lemma jsonOnly_handleFileChangeM {s : WatcherMaps} {fn : String}
    (act : HandleAction) (hs : JsonOnly s)
    (hfn : endsWithJson fn = true) :
    JsonOnly (handleFileChangeM s fn act) := by
  have hgen : ∀ act2 : HandleAction, act2 ≠ HandleAction.fileGone →
      JsonOnly (handleFileChangeM s fn act2) := by
    intro act2 hne
    rw [handleFileChangeM_not_gone s fn act2 hne]
    split
    · exact jsonOnly_handleFileM _ (jsonOnly_cancelScheduledM hs) hfn
    · exact jsonOnly_handleFileM _ hs hfn
  cases act
  case fileGone => exact jsonOnly_handleDeleteM hs
  all_goals exact hgen _ fun hx => HandleAction.noConfusion hx

lemma jsonOnly_step {s : WatcherMaps} (c : WatcherCmd) (hs : JsonOnly s) :
    JsonOnly (watcherStep s c) := by
  cases c with
  | notify fn act =>
    show JsonOnly (watchNotify s fn act)
    unfold watchNotify
    split
    · exact jsonOnly_handleFileChangeM act hs (by assumption)
    · exact hs
  | scan fn act =>
    show JsonOnly (scanFileM s fn act)
    unfold scanFileM
    split
    · exact jsonOnly_handleFileM act hs (by assumption)
    · exact hs
  | fireTimer fn =>
    show JsonOnly (fireTimerM s fn)
    unfold fireTimerM
    split
    · exact jsonOnly_deleteFileM ⟨hs.1, jsonOnly_erase hs.2.1, hs.2.2⟩
    · exact hs
  | fireCron fn =>
    show JsonOnly (fireCronM s fn)
    unfold fireCronM
    split
    · exact ⟨hs.1, hs.2.1, hs.2.2⟩
    · exact hs

lemma jsonOnly_run (s : WatcherMaps) (hs : JsonOnly s)
    (cmds : List WatcherCmd) : JsonOnly (watcherRun s cmds) := by
  induction cmds generalizing s with
  | nil => exact hs
  | cons c cs ih => exact ih _ (jsonOnly_step c hs)

/-- C10: a filesystem notification or scanned file whose name does not
end in ".json" is ignored outright - no parsing, scheduling, firing or
deletion, the whole watcher state unchanged - and consequently, along
every sequence of notifications, scans and timer/cron firings from the
fresh watcher, the known-file set, timer map and cron map contain only
".json" filenames. -/
theorem watcher_handles_only_json (cmds : List WatcherCmd) :
    (∀ (s : WatcherMaps) (fn : String) (act : HandleAction),
      endsWithJson fn = false →
      watchNotify s fn act = s ∧ scanFileM s fn act = s) ∧
    JsonOnly (watcherRun watcherMapsInit cmds) := by
  constructor
  · intro s fn act hfn
    constructor
    · unfold watchNotify
      rw [if_neg (by simp [hfn])]
    · unfold scanFileM
      rw [if_neg (by simp [hfn])]
  · refine jsonOnly_run watcherMapsInit ?_ cmds
    refine ⟨?_, ?_, ?_⟩ <;> intro fn hfn <;> simp [watcherMapsInit] at hfn

/-- Witness for `watcher_handles_only_json`: a non-json notification
leaves any state unchanged, and a small run keeps only ".json" names
registered. -/
theorem watcher_handles_only_json_witness :
    watchNotify watcherMapsInit "note.txt" HandleAction.oneShotFuture
      = watcherMapsInit ∧
    JsonOnly (watcherRun watcherMapsInit
      [WatcherCmd.notify "a.json" HandleAction.oneShotFuture,
       WatcherCmd.notify "note.txt" HandleAction.periodicValid]) :=
  ⟨((watcher_handles_only_json []).1 watcherMapsInit "note.txt"
      HandleAction.oneShotFuture (by decide)).1,
   (watcher_handles_only_json
      [WatcherCmd.notify "a.json" HandleAction.oneShotFuture,
       WatcherCmd.notify "note.txt" HandleAction.periodicValid]).2⟩
